import Mathlib

/-!
# Airtable client (`go/kit/airtable/airtablecli.go`)

A shallow embedding of the request pipeline of the Airtable client: the
executor `doAuthed` with its retry loop, the batching loop of `UpdateRecords`,
and the operations `GetRecords`, `CreateRecords`, `NewClient` and
`NewClientFromEnv`.

Conventions of the embedding.

* Go `string` is `String`, Go `int` is `Int` (the only arithmetic is on
  `retryIntervalMs`, which never exceeds `3000000` (`retryInterval_bounds`),
  so no machine width is ever reached), a Go slice is a `List`, a nil slice the empty list.
* A Go `error` is its message; a nil error is `none`.  A pointer that may be
  nil is an `Option`.
* Everything outside the package is a field of `Env`: `url.Parse`,
  `URL.String`, `http.NewRequest`, `json.Marshal`, `json.Unmarshal`,
  `os.Getenv` and the transport behind `http.Client.Do`.
* Effects are recorded in a `World`, the chronological list of `Event`s.
  Log lines are not events.
* `for { ... }` in `doAuthed` has no static bound; the loop is run with a
  fuel counter and reports `Outcome.running` when the fuel is used up before
  the loop returns.
-/

set_option autoImplicit false

namespace Airtable

/-! ## Data model -/

/-- A Go `error`, identified by its message. -/
abbrev GoError := String

/-- A Go `[]byte`. -/
abbrev Bytes := List UInt8

/-- The struct `AirtableRecord`; `Fields` is the `map[string]string`. -/
structure AirtableRecord where
  ID : String
  Fields : List (String × String)
  CreatedTime : String
  deriving DecidableEq, Repr

/-- The struct `AirtableRecordsRes`, the envelope of reads and writes. -/
structure AirtableRecordsRes where
  Records : List AirtableRecord
  Offset : String
  deriving DecidableEq, Repr

/-- The struct `Client`.  The two rate-limiter fields carry no data that any
operation reads back; taking a token is recorded as `Event.take`. -/
structure Client where
  apiKey : String
  baseUrl : String
  deriving DecidableEq, Repr

/-! ## Batching loop of `UpdateRecords` -/

/-- The loop `for i, rec := range records { ... }` of `UpdateRecords`, started
at index `i` with the records still to visit; `n` is `len(records)`.  The
result is `recordBatches` when the loop is left, by `break` or at the end of
the range. -/
def batchLoop (n : Nat) :
    Nat → List AirtableRecord → List (List AirtableRecord) → List AirtableRecord →
      List (List AirtableRecord)
  | _, [], recordBatches, _ => recordBatches
  | i, rec :: rest, recordBatches, currentBatch =>
    let flushed : List (List AirtableRecord) × List AirtableRecord :=
      if currentBatch.length = 10 then (recordBatches ++ [currentBatch], [])
      else (recordBatches, currentBatch)
    let currentBatch := flushed.2 ++ [rec]
    if (i : Int) = (n : Int) - 1 then flushed.1 ++ [currentBatch]
    else batchLoop n (i + 1) rest flushed.1 currentBatch

/-- The value of `recordBatches` after the batching loop of `UpdateRecords`. -/
def recordBatches (records : List AirtableRecord) : List (List AirtableRecord) :=
  batchLoop records.length 0 records [] []

/-- Shape of a non-empty batch plan: every chunk but the last has exactly ten
elements and the last has between one and ten. -/
def Chunked : List (List AirtableRecord) → Prop
  | [] => False
  | [b] => 1 ≤ b.length ∧ b.length ≤ 10
  | b :: c :: t => b.length = 10 ∧ Chunked (c :: t)

/-! ## Standard-library helpers with a closed form -/

/-- The call `strings.Join(elems, sep)`. -/
def stringsJoin : List String → String → String
  | [], _ => ""
  | [x], _ => x
  | x :: y :: t, sep => x ++ sep ++ stringsJoin (y :: t) sep

/-- The bytes of a Go string (UTF-8). -/
def utf8Bytes (s : String) : List UInt8 :=
  s.data.flatMap String.utf8EncodeChar

/-- The predicate `shouldEscape(c, encodeQueryComponent)` of `net/url`:
letters, digits and the marks `-`, `_`, `.`, `~` are kept, every other byte
is escaped. -/
def shouldEscape (c : UInt8) : Bool :=
  let n := c.toNat
  if (97 ≤ n ∧ n ≤ 122) ∨ (65 ≤ n ∧ n ≤ 90) ∨ (48 ≤ n ∧ n ≤ 57) then false
  else if n = 45 ∨ n = 95 ∨ n = 46 ∨ n = 126 then false
  else true

/-- One digit of `upperhex = "0123456789ABCDEF"`. -/
def upperhex (n : Nat) : Char :=
  if n < 10 then Char.ofNat (48 + n) else Char.ofNat (55 + n)

/-- What `escape(s, encodeQueryComponent)` writes for one byte: a space becomes
a plus sign, an escaped byte its two upper-case hex digits after a percent
sign. -/
def escapeByte (c : UInt8) : List Char :=
  if c.toNat = 32 then ['+']
  else if shouldEscape c then ['%', upperhex (c.toNat / 16), upperhex (c.toNat % 16)]
  else [Char.ofNat c.toNat]

/-- The function `url.QueryEscape`. -/
def QueryEscape (s : String) : String :=
  String.mk ((utf8Bytes s).flatMap escapeByte)

/-- The type `url.Values`, a `map[string][]string`, as an association list
with distinct keys. -/
abbrev Values := List (String × List String)

/-- The method `Values.Add(key, value)`: append to the values of the key. -/
def Values.Add : Values → String → String → Values
  | [], key, value => [(key, [value])]
  | (k, vs) :: t, key, value =>
    if k = key then (k, vs ++ [value]) :: t else (k, vs) :: Values.Add t key value

/-- Insertion of one entry into a list of entries sorted by key. -/
def Values.insertSorted (e : String × List String) : Values → Values
  | [] => [e]
  | f :: t => if e.1 < f.1 then e :: f :: t else f :: Values.insertSorted e t

/-- The entries in increasing order of key, as `Values.Encode` visits them. -/
def Values.sorted (v : Values) : Values :=
  v.foldr Values.insertSorted []

/-- The method `Values.Encode()`: the pairs `key=value`, both escaped, in key
order, separated by `&`; the empty string for no pair. -/
def Values.Encode (v : Values) : String :=
  stringsJoin
    ((Values.sorted v).flatMap fun e => e.2.map fun x => QueryEscape e.1 ++ "=" ++ QueryEscape x)
    "&"

/-! ## Requests, responses, the environment -/

/-- The struct `url.URL`. -/
structure URL where
  Scheme : String
  Opaque : String
  Host : String
  Path : String
  RawQuery : String
  Fragment : String
  deriving DecidableEq, Repr

/-- An `http.Request` of the client side: `RequestURI` is the field that only
a server fills; `http.NewRequest` leaves it empty. -/
structure Request where
  Method : String
  URL : String
  Body : Option Bytes
  Header : List (String × String)
  RequestURI : String
  deriving DecidableEq, Repr

/-- The state of the stream `resp.Body`, as what `ioutil.ReadAll(resp.Body)`
would yield on it now: the bytes not read yet, or the error of the read. -/
inductive BodyRead where
  | data (raw : Bytes)
  | failed (err : GoError)
  deriving DecidableEq, Repr

/-- The stream after `ioutil.ReadAll` has read it: at its end, with no byte
left, or still failed with the error of the read. -/
def BodyRead.afterReadAll : BodyRead → BodyRead
  | .data _ => .data []
  | .failed err => .failed err

/-- An `http.Response`. -/
structure Response where
  StatusCode : Int
  Body : BodyRead
  deriving DecidableEq, Repr

/-- The response once `ioutil.ReadAll(resp.Body)` has run on it: the same
status, the body read to its end. -/
def Response.afterReadAll (resp : Response) : Response :=
  { resp with Body := resp.Body.afterReadAll }

/-- The pair `(resp, err)` of `http.Client.Do`: a response and a nil error, or
a non-nil error, with which a response comes only when a redirect was refused. -/
inductive DoResult where
  | ok (resp : Response)
  | failed (resp : Option Response) (err : GoError)
  deriving DecidableEq, Repr

/-- Everything the package calls outside itself.  `roundTrip n req` is the
answer of `http.Client.Do` to the request `req` when `n` requests were
dispatched before it. -/
structure Env where
  urlParse : String → Except GoError URL
  urlString : URL → String
  newRequestErr : String → String → Option GoError
  jsonMarshal : AirtableRecordsRes → Except GoError Bytes
  jsonUnmarshal : Bytes → Except GoError AirtableRecordsRes
  getenv : String → String
  roundTrip : Nat → Request → DoResult

/-- An observable effect of the client. -/
inductive Event where
  /-- The call `a.getRateToken()`, a token of the rate limiter. -/
  | take
  /-- The call `cli.Do(req)`. -/
  | request (req : Request)
  /-- The call `ioutil.ReadAll(resp.Body)` that `doAuthed` makes to log the
  body of a response whose status is not 200; it leaves the body read to its
  end. -/
  | readBody (status : Int)
  /-- The wait `<-blk.C` on a timer of the given milliseconds. -/
  | sleep (ms : Int)
  deriving DecidableEq, Repr

/-- The effects so far, oldest first. -/
abbrev World := List Event

/-- The requests dispatched, oldest first. -/
def requests (w : World) : List Request :=
  w.filterMap fun e => match e with
    | .request req => some req
    | _ => none

/-- The number of requests dispatched. -/
def sent (w : World) : Nat := (requests w).length

/-- The delays slept, oldest first. -/
def sleeps (w : World) : List Int :=
  w.filterMap fun e => match e with
    | .sleep ms => some ms
    | _ => none

/-- How a call ends: it returns, it panics (a nil pointer is dereferenced), or
the fuel given to the retry loop is used up while the loop is still going. -/
inductive Outcome (α : Type) where
  | returned (a : α) (w : World)
  | panicked (w : World)
  | running (w : World)
  deriving DecidableEq, Repr

/-- The world in which a call ends. -/
def Outcome.world {α : Type} : Outcome α → World
  | .returned _ w => w
  | .panicked w => w
  | .running w => w

/-! ## The executor `doAuthed` -/

/-- The function `http.NewRequest(method, url, body)`. -/
def newRequest (env : Env) (method url : String) (data : Option Bytes) : Except GoError Request :=
  match env.newRequestErr method url with
  | some err => .error err
  | none =>
    .ok { Method := if method = "" then "GET" else method, URL := url, Body := data,
          Header := [], RequestURI := "" }

/-- The method `prepRequest`: two `Header.Add` calls, then `return nil`. -/
def prepRequest (a : Client) (req : Request) : Request × Option GoError :=
  let bearer := "Bearer " ++ a.apiKey
  let req := { req with Header := req.Header ++ [("Content-Type", "application/json")] }
  let req := { req with Header := req.Header ++ [("Authorization", bearer)] }
  (req, none)

/-- The method `getRateToken`: one token of the limiter, which is made on
first use with a rate of ten a second.  The call blocks and returns a time
that `doAuthed` drops. -/
def getRateToken (w : World) : World :=
  w ++ [Event.take]

/-- The local `maxRetries := 20` of `doAuthed`. -/
def maxRetries : Int := 20

/-- The local `backoffMultiple := 10` of `doAuthed`. -/
def backoffMultiple : Int := 10

/-- The local `maxRetryInterval := 300000` of `doAuthed`, in milliseconds. -/
def maxRetryInterval : Int := 300000

/-- The variables of `doAuthed` that live across iterations of its loop. -/
structure LoopVars where
  retries : Int
  retryIntervalMs : Int
  resp : Option Response
  deriving DecidableEq, Repr

/-- How one iteration of the loop of `doAuthed` ends: with `continue`, or by
leaving the function with the pair `(resp, err)`. -/
inductive Step where
  | next (v : LoopVars) (w : World)
  | leave (r : Option Response × Option GoError) (w : World)
  deriving DecidableEq, Repr

/-- One iteration of `for { ... }` in `doAuthed`.  The `err` of the loop body
is a variable of its own (`req, err := ...`), so the `return resp, err` after
the loop, reached by `break`, returns the outer `err`, which is nil.  For a
status other than 200 the body of the response is read to its end for the
log, so the response that is kept and returned has nothing left to read. -/
def doAuthedBody (env : Env) (a : Client) (method url : String) (data : Option Bytes)
    (v : LoopVars) (w : World) : Step :=
  match newRequest env method url data with
  | .error err => .leave (v.resp, some err) w
  | .ok req =>
    match prepRequest a req with
    | (_, some err) => .leave (v.resp, some err) w
    | (req, none) =>
      if v.retries > maxRetries then
        .leave (v.resp, some ("Hit max retries when attempting " ++ req.RequestURI)) w
      else
        let retryIntervalMs :=
          if v.retryIntervalMs > maxRetryInterval then maxRetryInterval else v.retryIntervalMs
        let w := getRateToken w
        match env.roundTrip (sent w) req with
        | .failed resp err => .leave (resp, some err) (w ++ [Event.request req])
        | .ok resp =>
          let w := w ++ [Event.request req]
          let logged : Response × World :=
            if resp.StatusCode ≠ 200 then
              (resp.afterReadAll, w ++ [Event.readBody resp.StatusCode])
            else (resp, w)
          let resp := logged.1
          let w := logged.2
          if resp.StatusCode = 422 then
            .next { retries := v.retries, retryIntervalMs := retryIntervalMs * backoffMultiple,
                    resp := some resp }
              (w ++ [Event.sleep retryIntervalMs])
          else .leave (some resp, none) w

/-- The loop of `doAuthed`, run for at most `fuel` iterations. -/
def doAuthedLoop (env : Env) (a : Client) (method url : String) (data : Option Bytes) :
    Nat → LoopVars → World → Outcome (Option Response × Option GoError)
  | 0, _, w => .running w
  | fuel + 1, v, w =>
    match doAuthedBody env a method url data v w with
    | .next v w => doAuthedLoop env a method url data fuel v w
    | .leave r w => .returned r w

/-- The method `doAuthed`. -/
def doAuthed (env : Env) (a : Client) (method url : String) (data : Option Bytes)
    (fuel : Nat) (w : World) : Outcome (Option Response × Option GoError) :=
  doAuthedLoop env a method url data fuel { retries := 0, retryIntervalMs := 200, resp := none } w

/-- The request that every attempt of `doAuthed` dispatches. -/
def authedRequest (a : Client) (method url : String) (data : Option Bytes) : Request :=
  { Method := if method = "" then "GET" else method, URL := url, Body := data,
    Header := [("Content-Type", "application/json"), ("Authorization", "Bearer " ++ a.apiKey)],
    RequestURI := "" }

/-! ## The operations -/

/-- The loop `for _, batch := range recordBatches { ... }` of `UpdateRecords`.
After a nil error `doAuthed` has a response, so `defer resp.Body.Close()` has
a body to close; the closes run when `UpdateRecords` returns. -/
def updateBatches (env : Env) (a : Client) (url : String) (fuel : Nat) :
    List (List AirtableRecord) → World → Outcome (Option GoError)
  | [], w => .returned none w
  | batch :: rest, w =>
    let payload : AirtableRecordsRes := { Records := batch, Offset := "" }
    match env.jsonMarshal payload with
    | .error err => .returned (some err) w
    | .ok data =>
      match doAuthed env a "PATCH" url (some data) fuel w with
      | .running w => .running w
      | .panicked w => .panicked w
      | .returned (_, some err) w => .returned (some err) w
      | .returned (none, none) w => .panicked w
      | .returned (some _, none) w => updateBatches env a url fuel rest w

/-- The method `UpdateRecords`. -/
def UpdateRecords (env : Env) (a : Client) (base table : String) (records : List AirtableRecord)
    (fuel : Nat) (w : World) : Outcome (Option GoError) :=
  let urlStr := stringsJoin [a.baseUrl, base, table] "/"
  match env.urlParse urlStr with
  | .error err => .returned (some err) w
  | .ok baseUrl => updateBatches env a (env.urlString baseUrl) fuel (recordBatches records) w

/-- The method `GetRecords`.  The error of `url.Parse` is overwritten
unread; on a parse error `baseUrl` is nil and `baseUrl.RawQuery = ...`
dereferences it. -/
def GetRecords (env : Env) (a : Client) (base table filter : String)
    (fuel : Nat) (w : World) : Outcome (List AirtableRecord × Option GoError) :=
  let records : List AirtableRecord := []
  let params : Values := if filter ≠ "" then Values.Add [] "filterByFormula" filter else []
  let urlStr := stringsJoin [a.baseUrl, base, table] "/"
  match env.urlParse urlStr with
  | .error _ => .panicked w
  | .ok baseUrl =>
    let baseUrl := { baseUrl with RawQuery := Values.Encode params }
    match doAuthed env a "GET" (env.urlString baseUrl) none fuel w with
    | .running w => .running w
    | .panicked w => .panicked w
    | .returned (_, some err) w => .returned (records, some err) w
    | .returned (none, none) w => .panicked w
    | .returned (some resp, none) w =>
      if resp.StatusCode ≠ 200 then .returned (records, some "Invalid StatusCode GetRecords") w
      else
        match resp.Body with
        | .failed err => .returned (records, some err) w
        | .data rawRes =>
          match env.jsonUnmarshal rawRes with
          | .error err => .returned (records, some err) w
          | .ok serialized => .returned (serialized.Records, none) w

/-- The method `CreateRecords`.  The statement `defer resp.Body.Close()` comes
before the check of `err` and evaluates `resp.Body` at once: with a nil
`resp` it panics. -/
def CreateRecords (env : Env) (a : Client) (base table : String)
    (records : List (List (String × String))) (fuel : Nat) (w : World) : Outcome (Option GoError) :=
  let airRecs : List AirtableRecord :=
    records.foldl (fun airRecs record =>
      airRecs ++ [({ ID := "", Fields := record, CreatedTime := "" } : AirtableRecord)]) []
  let data : AirtableRecordsRes := { Records := airRecs, Offset := "" }
  match env.jsonMarshal data with
  | .error err => .returned (some err) w
  | .ok dataBytes =>
    let url := stringsJoin [a.baseUrl, base, table] "/"
    match doAuthed env a "POST" url (some dataBytes) fuel w with
    | .running w => .running w
    | .panicked w => .panicked w
    | .returned (none, _) w => .panicked w
    | .returned (some _, some err) w => .returned (some err) w
    | .returned (some _, none) w => .returned none w

/-- The function `NewClient`: it has no error result. -/
def NewClient (apiKey baseUrl : String) : Client :=
  { apiKey := apiKey, baseUrl := baseUrl }

/-- The function `NewClientFromEnv`; `&Client{}` is the zero value. -/
def NewClientFromEnv (env : Env) : Client × Option GoError :=
  let key := env.getenv "AIRTABLE_API_KEY"
  if key = "" then ({ apiKey := "", baseUrl := "" }, some "Empty AIRTABLE_API_KEY")
  else (NewClient key "https://api.airtable.com/v0", none)

/-! ## Definitions used by the statements -/

/-- The test `if retryIntervalMs > maxRetryInterval { retryIntervalMs = maxRetryInterval }`. -/
def capInterval (v : Int) : Int := if v > maxRetryInterval then maxRetryInterval else v

/-- The delays of `j` successive retries when `retryIntervalMs` starts at `v`. -/
def delays : Int → Nat → List Int
  | _, 0 => []
  | v, j + 1 => capInterval v :: delays (capInterval v * backoffMultiple) j

/-- The events of successive attempts answered 422, one attempt for each
delay: a rate token, the request, the read of the body for the log, the wait. -/
def retryEvents (req : Request) (ds : List Int) : List Event :=
  ds.flatMap fun d => [Event.take, Event.request req, Event.readBody 422, Event.sleep d]

/-- The request `UpdateRecords` sends for one batch whose payload is `data`. -/
def patchRequest (a : Client) (url : String) (data : Bytes) : Request :=
  authedRequest a "PATCH" url (some data)

/-- The response as `doAuthed` hands it on: read to its end when its status
is not 200, untouched when it is. -/
def afterLog (resp : Response) : Response :=
  if resp.StatusCode ≠ 200 then resp.afterReadAll else resp

/-- The query `GetRecords` puts on its URL. -/
def filterQuery (filter : String) : String :=
  if filter = "" then "" else "filterByFormula=" ++ QueryEscape filter

/-! ## Sample environments -/

/-- A stand-in for `url.Parse` that accepts every string and keeps it whole
as the path. -/
def sampleParse (s : String) : Except GoError URL :=
  .ok { Scheme := "", Opaque := "", Host := "", Path := s, RawQuery := "", Fragment := "" }

/-- A stand-in for `URL.String` on the URLs of `sampleParse`. -/
def sampleString (u : URL) : String :=
  if u.RawQuery = "" then u.Path else u.Path ++ "?" ++ u.RawQuery

/-- A stand-in for `json.Marshal`: the identifiers of the records. -/
def sampleMarshal (p : AirtableRecordsRes) : Bytes :=
  p.Records.flatMap fun r => utf8Bytes r.ID

/-- An environment whose transport answers the `n`-th request with
`answer n`, whose requests are always well formed and whose variable
`AIRTABLE_API_KEY` has the value `key`. -/
def sampleEnv (answer : Nat → DoResult) (key : String) : Env :=
  { urlParse := sampleParse
    urlString := sampleString
    newRequestErr := fun _ _ => none
    jsonMarshal := fun p => .ok (sampleMarshal p)
    jsonUnmarshal := fun _ => .ok { Records := [], Offset := "" }
    getenv := fun name => if name = "AIRTABLE_API_KEY" then key else ""
    roundTrip := fun n _ => answer n }

/-- A response with the given status and an empty body. -/
def statusResponse (status : Int) : Response :=
  { StatusCode := status, Body := .data [] }

/-- A transport that answers every request with the given status. -/
def always (status : Int) : Nat → DoResult :=
  fun _ => .ok (statusResponse status)

/-- A response with status 404 and the three bytes of `n/a` as its body. -/
def notFoundResponse : Response :=
  { StatusCode := 404, Body := .data [110, 47, 97] }

/-- A transport that answers every request with `notFoundResponse`. -/
def notFound : Nat → DoResult :=
  fun _ => .ok notFoundResponse

/-- A transport on which no connection can be made: no response, an error. -/
def refused : Nat → DoResult :=
  fun _ => .failed none "dial tcp: connection refused"

/-- A transport that answers the first `n` requests with status 200 and has
no connection after them. -/
def refusedAfter (n : Nat) : Nat → DoResult :=
  fun i => if i < n then .ok (statusResponse 200) else .failed none "dial tcp: connection refused"

/-- A transport that answers the first `n` requests with status 422 and the
later ones with the given status. -/
def busyThen (n : Nat) (status : Int) : Nat → DoResult :=
  fun i => if i < n then .ok (statusResponse 422) else .ok (statusResponse status)

/-- A client of the service. -/
def sampleClient : Client := NewClient "keyXYZ" "https://api.airtable.com/v0"

/-- What `sampleParse` makes of the URL of table `tbl` of base `app` for
`sampleClient`. -/
def sampleTarget : URL :=
  { Scheme := "", Opaque := "", Host := "", Path := "https://api.airtable.com/v0/app/tbl",
    RawQuery := "", Fragment := "" }

/-- The records `rec0`, `rec1`, ... in number `n`. -/
def sampleRecords (n : Nat) : List AirtableRecord :=
  (List.range n).map fun i => { ID := "rec" ++ toString i, Fields := [], CreatedTime := "" }

/-! ## Batching: lemmas -/

theorem Chunked.ne_nil {T : List (List AirtableRecord)} (h : Chunked T) : T ≠ [] := by
  intro hT
  subst hT
  exact h

theorem Chunked.cons {b : List AirtableRecord} {T : List (List AirtableRecord)}
    (hb : b.length = 10) (h : Chunked T) : Chunked (b :: T) := by
  cases T with
  | nil => exact absurd h (by simp [Chunked])
  | cons c t => exact ⟨hb, h⟩

/-- Invariant of the batching loop: from a state with a current batch of at
most ten records and at least one record left, the loop appends a chunked
plan of the current batch followed by the remaining records. -/
theorem batchLoop_spec (n : Nat) (rest : List AirtableRecord) :
    ∀ (i : Nat) (B : List (List AirtableRecord)) (cur : List AirtableRecord),
      rest ≠ [] → i + rest.length = n → cur.length ≤ 10 →
      ∃ T, batchLoop n i rest B cur = B ++ T ∧ T.flatten = cur ++ rest ∧ Chunked T := by
  induction rest with
  | nil => intro i B cur h; exact absurd rfl h
  | cons r rest ih =>
    intro i B cur _ hlen hcur
    by_cases hrest : rest = []
    · subst hrest
      have hi : (i : Int) = (n : Int) - 1 := by simp at hlen; omega
      by_cases h10 : cur.length = 10
      · refine ⟨[cur, [r]], ?_, by simp, ?_⟩
        · simp [batchLoop, h10, hi]
        · exact ⟨h10, by simp [Chunked]⟩
      · refine ⟨[cur ++ [r]], ?_, by simp, ?_⟩
        · simp [batchLoop, h10, hi]
        · exact ⟨by simp, by simp; omega⟩
    · have hpos : 0 < rest.length := List.length_pos.mpr hrest
      have hi : ¬ ((i : Int) = (n : Int) - 1) := by simp at hlen; omega
      have hlen2 : i + 1 + rest.length = n := by simp at hlen; omega
      by_cases h10 : cur.length = 10
      · obtain ⟨T, hT, hj, hc⟩ := ih (i + 1) (B ++ [cur]) [r] hrest hlen2 (by simp)
        refine ⟨cur :: T, ?_, ?_, Chunked.cons h10 hc⟩
        · simp [batchLoop, h10, hi, hT]
        · simp [hj]
      · obtain ⟨T, hT, hj, hc⟩ := ih (i + 1) B (cur ++ [r]) hrest hlen2 (by simp; omega)
        refine ⟨T, ?_, ?_, hc⟩
        · simp [batchLoop, h10, hi, hT]
        · simp [hj]

/-- The batches of a non-empty input concatenate to it and are chunked. -/
theorem recordBatches_spec (records : List AirtableRecord) (h : records ≠ []) :
    (recordBatches records).flatten = records ∧ Chunked (recordBatches records) := by
  obtain ⟨T, hT, hj, hc⟩ := batchLoop_spec records.length records 0 [] [] h (by simp) (by simp)
  simp only [List.nil_append] at hT hj
  rw [recordBatches, hT]
  exact ⟨hj, hc⟩

theorem recordBatches_nil : recordBatches [] = [] := rfl

/-- The sizes of a chunked plan are determined by the number of records. -/
theorem Chunked.map_length (T : List (List AirtableRecord)) (h : Chunked T) :
    T.map List.length =
      List.replicate (T.flatten.length / 10) 10 ++
        (if T.flatten.length % 10 = 0 then [] else [T.flatten.length % 10]) := by
  induction T with
  | nil => exact absurd h (by simp [Chunked])
  | cons b T ih =>
    cases T with
    | nil =>
      obtain ⟨h1, h2⟩ := h
      by_cases hb : b.length = 10
      · simp [hb]
      · have hlt : b.length < 10 := by omega
        have hd : b.length / 10 = 0 := Nat.div_eq_of_lt hlt
        have hm : b.length % 10 = b.length := Nat.mod_eq_of_lt hlt
        have hne : b.length ≠ 0 := by omega
        simp [hd, hm, hne]
    | cons c t =>
      obtain ⟨hb, hc⟩ := h
      have ih2 := ih hc
      have hd : (b ++ (c :: t).flatten).length / 10 = (c :: t).flatten.length / 10 + 1 := by
        rw [List.length_append, hb]; omega
      have hm : (b ++ (c :: t).flatten).length % 10 = (c :: t).flatten.length % 10 := by
        rw [List.length_append, hb]; omega
      have hf : (b :: c :: t).flatten = b ++ (c :: t).flatten := rfl
      rw [hf, hd, hm, List.replicate_succ, List.map_cons, ih2, hb]
      rfl

/-! ## The executor: lemmas -/

@[simp]
theorem afterReadAll_status (r : Response) : r.afterReadAll.StatusCode = r.StatusCode := rfl

@[simp]
theorem afterLog_status (r : Response) : (afterLog r).StatusCode = r.StatusCode := by
  unfold afterLog
  split <;> rfl

@[simp]
theorem requests_append (w v : World) : requests (w ++ v) = requests w ++ requests v := by
  simp [requests]

@[simp]
theorem sleeps_append (w v : World) : sleeps (w ++ v) = sleeps w ++ sleeps v := by
  simp [sleeps]

@[simp]
theorem sent_append (w v : World) : sent (w ++ v) = sent w + sent v := by
  simp [sent]

theorem newRequest_prep (env : Env) (a : Client) (method url : String) (data : Option Bytes)
    (h : env.newRequestErr method url = none) :
    ∃ req, newRequest env method url data = .ok req ∧
      prepRequest a req = (authedRequest a method url data, none) := by
  refine ⟨{ Method := if method = "" then "GET" else method, URL := url, Body := data,
            Header := [], RequestURI := "" }, ?_, ?_⟩
  · simp only [newRequest, h]
  · simp [prepRequest, authedRequest]

/-- The four ways one iteration of the loop of `doAuthed` can end. -/
theorem doAuthedBody_cases (env : Env) (a : Client) (method url : String) (data : Option Bytes)
    (v : LoopVars) (w : World) :
    (∃ err, doAuthedBody env a method url data v w = .leave (v.resp, some err) w ∧
      (env.newRequestErr method url = some err ∨
        (v.retries > maxRetries ∧ err = "Hit max retries when attempting " ++ ""))) ∨
    (∃ resp err, doAuthedBody env a method url data v w =
        .leave (resp, some err) (w ++ [Event.take, Event.request (authedRequest a method url data)]) ∧
      env.roundTrip (sent w) (authedRequest a method url data) = .failed resp err) ∨
    (∃ r, doAuthedBody env a method url data v w =
        .leave (some (afterLog r), none)
          (w ++ [Event.take, Event.request (authedRequest a method url data)] ++
            (if r.StatusCode ≠ 200 then [Event.readBody r.StatusCode] else [])) ∧
      env.roundTrip (sent w) (authedRequest a method url data) = .ok r ∧ r.StatusCode ≠ 422 ∧
      env.newRequestErr method url = none ∧ ¬ v.retries > maxRetries) ∨
    (∃ r, doAuthedBody env a method url data v w =
        .next { retries := v.retries,
                retryIntervalMs := capInterval v.retryIntervalMs * backoffMultiple,
                resp := some r.afterReadAll }
          (w ++ [Event.take, Event.request (authedRequest a method url data), Event.readBody 422,
            Event.sleep (capInterval v.retryIntervalMs)]) ∧
      env.roundTrip (sent w) (authedRequest a method url data) = .ok r ∧ r.StatusCode = 422 ∧
      env.newRequestErr method url = none ∧ ¬ v.retries > maxRetries) := by
  cases hreq : env.newRequestErr method url with
  | some err =>
    left
    exact ⟨err, by simp [doAuthedBody, newRequest, hreq], Or.inl rfl⟩
  | none =>
    obtain ⟨req, hnew, hprep⟩ := newRequest_prep env a method url data hreq
    by_cases hret : v.retries > maxRetries
    · left
      refine ⟨_, ?_, Or.inr ⟨hret, rfl⟩⟩
      simp [doAuthedBody, hnew, hprep, hret, authedRequest]
    · right
      have hsent : sent [Event.take] = 0 := rfl
      cases hrt : env.roundTrip (sent w) (authedRequest a method url data) with
      | failed resp err =>
        left
        refine ⟨resp, err, ?_, rfl⟩
        simp [doAuthedBody, hnew, hprep, hret, hsent, hrt, getRateToken]
      | ok r =>
        right
        by_cases hs : r.StatusCode = 422
        · right
          refine ⟨r, ?_, rfl, hs, rfl, hret⟩
          simp [doAuthedBody, hnew, hprep, hret, hsent, hrt, hs, capInterval, getRateToken]
        · left
          refine ⟨r, ?_, rfl, hs, rfl, hret⟩
          by_cases h200 : r.StatusCode = 200 <;>
            simp [doAuthedBody, hnew, hprep, hret, hsent, hrt, hs, h200, getRateToken, afterLog]

theorem retryEvents_cons (req : Request) (d : Int) (ds : List Int) :
    retryEvents req (d :: ds) =
      [Event.take, Event.request req, Event.readBody 422, Event.sleep d] ++ retryEvents req ds := by
  simp [retryEvents]

@[simp]
theorem retryEvents_nil (req : Request) : retryEvents req [] = [] := rfl

@[simp]
theorem requests_retryEvents (req : Request) (ds : List Int) :
    requests (retryEvents req ds) = List.replicate ds.length req := by
  induction ds with
  | nil => rfl
  | cons d ds ih =>
    rw [retryEvents_cons, requests_append, ih]
    simp [requests, List.replicate_succ]

@[simp]
theorem sleeps_retryEvents (req : Request) (ds : List Int) :
    sleeps (retryEvents req ds) = ds := by
  induction ds with
  | nil => rfl
  | cons d ds ih =>
    rw [retryEvents_cons, sleeps_append, ih]
    simp [sleeps]

@[simp]
theorem length_delays (v : Int) (j : Nat) : (delays v j).length = j := by
  induction j generalizing v with
  | zero => rfl
  | succ j ih => simp [delays, ih]

/-- While the answers are 422 the loop of `doAuthed` goes on: `j` such answers
cost `j` units of fuel and leave `j` attempts, each followed by its delay, in
the world; `retries` is never changed. -/
theorem doAuthedLoop_retries (env : Env) (a : Client) (method url : String) (data : Option Bytes)
    (hreq : env.newRequestErr method url = none) (j : Nat) :
    ∀ (v : LoopVars) (w : World) (fuel : Nat), ¬ v.retries > maxRetries →
      (∀ i, i < j → ∃ r, env.roundTrip (sent w + i) (authedRequest a method url data) = .ok r ∧
        r.StatusCode = 422) →
      ∃ v2 : LoopVars, v2.retries = v.retries ∧
        doAuthedLoop env a method url data (j + fuel) v w =
          doAuthedLoop env a method url data fuel v2
            (w ++ retryEvents (authedRequest a method url data) (delays v.retryIntervalMs j)) := by
  induction j with
  | zero =>
    intro v w fuel _ _
    exact ⟨v, rfl, by simp [delays]⟩
  | succ j ih =>
    intro v w fuel hret h
    obtain ⟨r0, hr0, hs0⟩ := h 0 (Nat.succ_pos j)
    rw [Nat.add_zero] at hr0
    have hbody : doAuthedBody env a method url data v w =
        .next { retries := v.retries,
                retryIntervalMs := capInterval v.retryIntervalMs * backoffMultiple,
                resp := some r0.afterReadAll }
          (w ++ [Event.take, Event.request (authedRequest a method url data), Event.readBody 422,
            Event.sleep (capInterval v.retryIntervalMs)]) := by
      rcases doAuthedBody_cases env a method url data v w with
        ⟨err, _, h1 | h1⟩ | ⟨resp, err, _, h1⟩ | ⟨r, _, h1, h2, _⟩ | ⟨r, hb, h1, _⟩
      · rw [hreq] at h1; cases h1
      · exact absurd h1.1 hret
      · rw [hr0] at h1; cases h1
      · rw [hr0] at h1; cases h1; exact absurd hs0 h2
      · rw [hr0] at h1; cases h1; exact hb
    have hfuel : j + 1 + fuel = (j + fuel) + 1 := by omega
    obtain ⟨v2, hv2, hloop⟩ := ih
      { retries := v.retries, retryIntervalMs := capInterval v.retryIntervalMs * backoffMultiple,
        resp := some r0.afterReadAll }
      (w ++ [Event.take, Event.request (authedRequest a method url data), Event.readBody 422,
        Event.sleep (capInterval v.retryIntervalMs)]) fuel hret
      (by
        intro i hi
        obtain ⟨r, hr, hs⟩ := h (i + 1) (by omega)
        refine ⟨r, ?_, hs⟩
        have : sent (w ++ [Event.take, Event.request (authedRequest a method url data),
            Event.readBody 422, Event.sleep (capInterval v.retryIntervalMs)]) + i
            = sent w + (i + 1) := by
          simp [sent, requests]; omega
        rw [this]; exact hr)
    refine ⟨v2, hv2, ?_⟩
    rw [hfuel, doAuthedLoop, hbody]
    simp only []
    rw [hloop, delays, retryEvents_cons]
    simp

/-- Whatever the answers, the requests of one `doAuthed` call are copies of
one request; a call that returns a nil error returns a response whose status
is not 422 and has dispatched at least one request; a call that returns an
error was stopped at the construction of the request, by the retry ceiling, or
by an error of the transport. -/
theorem doAuthedLoop_run (env : Env) (a : Client) (method url : String) (data : Option Bytes)
    (fuel : Nat) :
    ∀ (v : LoopVars) (w : World),
      ∃ n : Nat,
        requests (doAuthedLoop env a method url data fuel v w).world =
          requests w ++ List.replicate n (authedRequest a method url data) ∧
        (∀ resp w2, doAuthedLoop env a method url data fuel v w = .returned (resp, none) w2 →
          0 < n ∧ ∃ r, resp = some r ∧ r.StatusCode ≠ 422) ∧
        (∀ resp err w2, doAuthedLoop env a method url data fuel v w = .returned (resp, some err) w2 →
          env.newRequestErr method url = some err ∨
          (v.retries > maxRetries ∧ err = "Hit max retries when attempting " ++ "") ∨
          ∃ k, env.roundTrip k (authedRequest a method url data) = .failed resp err) ∧
        (∀ w2, doAuthedLoop env a method url data fuel v w ≠ .panicked w2) := by
  induction fuel with
  | zero =>
    intro v w
    refine ⟨0, by simp [doAuthedLoop, Outcome.world], ?_, ?_, ?_⟩ <;>
      simp [doAuthedLoop]
  | succ fuel ih =>
    intro v w
    rcases doAuthedBody_cases env a method url data v w with
      ⟨err, hb, h1⟩ | ⟨resp, err, hb, h1⟩ | ⟨r, hb, h1, h2, _⟩ | ⟨r, hb, h1, _⟩
    · refine ⟨0, by simp [doAuthedLoop, hb, Outcome.world], ?_, ?_, ?_⟩
      · intro resp w2 h; simp [doAuthedLoop, hb] at h
      · intro resp err2 w2 h
        simp [doAuthedLoop, hb] at h
        obtain ⟨⟨_, rfl⟩, _⟩ := h
        rcases h1 with h1 | h1
        · exact Or.inl h1
        · exact Or.inr (Or.inl h1)
      · intro w2 h; simp [doAuthedLoop, hb] at h
    · refine ⟨1, by simp [doAuthedLoop, hb, Outcome.world, requests], ?_, ?_, ?_⟩
      · intro resp2 w2 h; simp [doAuthedLoop, hb] at h
      · intro resp2 err2 w2 h
        simp [doAuthedLoop, hb] at h
        obtain ⟨⟨rfl, rfl⟩, _⟩ := h
        exact Or.inr (Or.inr ⟨_, h1⟩)
      · intro w2 h; simp [doAuthedLoop, hb] at h
    · refine ⟨1, ?_, ?_, ?_, ?_⟩
      · by_cases h200 : r.StatusCode = 200 <;>
          simp [doAuthedLoop, hb, Outcome.world, requests, h200]
      · intro resp2 w2 h
        simp [doAuthedLoop, hb] at h
        exact ⟨Nat.one_pos, afterLog r, h.1.symm, by rw [afterLog_status]; exact h2⟩
      · intro resp2 err2 w2 h; simp [doAuthedLoop, hb] at h
      · intro w2 h; simp [doAuthedLoop, hb] at h
    · obtain ⟨n, hn, hok, herr, hpanic⟩ := ih
        { retries := v.retries,
          retryIntervalMs := capInterval v.retryIntervalMs * backoffMultiple, resp := some r.afterReadAll }
        (w ++ [Event.take, Event.request (authedRequest a method url data), Event.readBody 422,
          Event.sleep (capInterval v.retryIntervalMs)])
      have hstep : doAuthedLoop env a method url data (fuel + 1) v w =
          doAuthedLoop env a method url data fuel
            { retries := v.retries,
              retryIntervalMs := capInterval v.retryIntervalMs * backoffMultiple, resp := some r.afterReadAll }
            (w ++ [Event.take, Event.request (authedRequest a method url data),
              Event.readBody 422, Event.sleep (capInterval v.retryIntervalMs)]) := by
        rw [doAuthedLoop, hb]
      rw [hstep]
      refine ⟨n + 1, ?_, ?_, herr, hpanic⟩
      · rw [hn]
        simp [requests, List.replicate_succ]
      · intro resp w2 h
        obtain ⟨_, h3⟩ := hok resp w2 h
        exact ⟨Nat.succ_pos n, h3⟩

theorem capInterval_eq_min (v : Int) : capInterval v = min v 300000 := by
  unfold capInterval maxRetryInterval
  split <;> omega

/-- The value of `retryIntervalMs` after an iteration is at most 3000000, and
not negative when it was not: it fits a Go `int` of any width. -/
theorem retryInterval_bounds (v : Int) :
    capInterval v * backoffMultiple ≤ 3000000 ∧
    (0 ≤ v → 0 ≤ capInterval v * backoffMultiple) := by
  rw [capInterval_eq_min]
  unfold backoffMultiple
  constructor
  · omega
  · intro h; omega

/-- Closed form of the delays: the `j`-th is `min (200 * 10 ^ j) 300000`. -/
theorem delays_closed (n : Nat) :
    ∀ (m : Nat) (v : Int), capInterval v = min (200 * 10 ^ m) 300000 →
      delays v n = (List.range n).map fun j => min (200 * 10 ^ (m + j) : Int) 300000 := by
  induction n with
  | zero => intro m v _; rfl
  | succ n ih =>
    intro m v hv
    have hnext : capInterval (capInterval v * backoffMultiple) = min (200 * 10 ^ (m + 1)) 300000 := by
      rw [capInterval_eq_min, hv, pow_succ]
      have hp : (0 : Int) < 10 ^ m := by positivity
      generalize (10 : Int) ^ m = p at hp
      unfold backoffMultiple
      omega
    rw [delays, ih (m + 1) _ hnext, List.range_succ_eq_map, List.map_cons, List.map_map, hv]
    simp only [Nat.add_zero, List.cons.injEq, true_and]
    apply List.map_congr_left
    intro j _
    simp only [Function.comp, Nat.succ_eq_add_one]
    rw [show m + 1 + j = m + (j + 1) by omega]

theorem delays_200 (n : Nat) :
    delays 200 n = (List.range n).map fun j => min (200 * 10 ^ j : Int) 300000 := by
  have h := delays_closed n 0 200 (by rw [capInterval_eq_min]; norm_num)
  simpa using h

/-- After `j` answers 422, a first answer with another status ends the call:
`doAuthed` returns that response and a nil error. -/
theorem doAuthed_returns (env : Env) (a : Client) (method url : String) (data : Option Bytes)
    (hreq : env.newRequestErr method url = none) (j : Nat) (w : World) (r : Response)
    (h422 : ∀ i, i < j → ∃ r2, env.roundTrip (sent w + i) (authedRequest a method url data) = .ok r2 ∧
      r2.StatusCode = 422)
    (hr : env.roundTrip (sent w + j) (authedRequest a method url data) = .ok r)
    (hs : r.StatusCode ≠ 422) (fuel : Nat) (hfuel : j < fuel) :
    doAuthed env a method url data fuel w =
      .returned (some (afterLog r), none)
        (w ++ retryEvents (authedRequest a method url data) (delays 200 j) ++
          [Event.take, Event.request (authedRequest a method url data)] ++
          (if r.StatusCode ≠ 200 then [Event.readBody r.StatusCode] else [])) := by
  obtain ⟨f, rfl⟩ : ∃ f, fuel = j + (f + 1) := ⟨fuel - j - 1, by omega⟩
  have h0 : ¬ ((0 : Int) > maxRetries) := by decide
  obtain ⟨v2, hv2, hloop⟩ := doAuthedLoop_retries env a method url data hreq j
    { retries := 0, retryIntervalMs := 200, resp := none } w (f + 1) h0 h422
  rw [doAuthed, hloop, doAuthedLoop]
  have hsent : sent (w ++ retryEvents (authedRequest a method url data) (delays 200 j)) =
      sent w + j := by
    simp [sent]
  rcases doAuthedBody_cases env a method url data v2
      (w ++ retryEvents (authedRequest a method url data) (delays 200 j)) with
    ⟨err, _, h1 | h1⟩ | ⟨resp, err, _, h1⟩ | ⟨r2, hb, h1, _⟩ | ⟨r2, _, h1, h2, _⟩
  · rw [hreq] at h1; cases h1
  · rw [hv2] at h1; exact absurd h1.1 h0
  · rw [hsent, hr] at h1; cases h1
  · rw [hsent, hr] at h1; cases h1; rw [hb]
  · rw [hsent, hr] at h1; cases h1; exact absurd h2 hs

/-- While every answer is 422 `doAuthed` is still in its loop, whatever the
fuel: one request and one delay for each unit of fuel. -/
theorem doAuthed_running (env : Env) (a : Client) (method url : String) (data : Option Bytes)
    (hreq : env.newRequestErr method url = none) (fuel : Nat) (w : World)
    (h422 : ∀ i, i < fuel → ∃ r, env.roundTrip (sent w + i) (authedRequest a method url data) = .ok r ∧
      r.StatusCode = 422) :
    doAuthed env a method url data fuel w =
      .running (w ++ retryEvents (authedRequest a method url data) (delays 200 fuel)) := by
  have h0 : ¬ ((0 : Int) > maxRetries) := by decide
  obtain ⟨v2, _, hloop⟩ := doAuthedLoop_retries env a method url data hreq fuel
    { retries := 0, retryIntervalMs := 200, resp := none } w 0 h0 h422
  rw [doAuthed, ← Nat.add_zero fuel, hloop]
  rfl

/-! ## The operations: lemmas -/

theorem doAuthed_run (env : Env) (a : Client) (method url : String) (data : Option Bytes)
    (fuel : Nat) (w : World) :
    ∃ n : Nat,
      requests (doAuthed env a method url data fuel w).world =
        requests w ++ List.replicate n (authedRequest a method url data) ∧
      (∀ resp w2, doAuthed env a method url data fuel w = .returned (resp, none) w2 →
        0 < n ∧ ∃ r, resp = some r ∧ r.StatusCode ≠ 422) ∧
      (∀ resp err w2, doAuthed env a method url data fuel w = .returned (resp, some err) w2 →
        env.newRequestErr method url = some err ∨
        ∃ k, env.roundTrip k (authedRequest a method url data) = .failed resp err) ∧
      (∀ w2, doAuthed env a method url data fuel w ≠ .panicked w2) := by
  obtain ⟨n, h1, h2, h3, h4⟩ := doAuthedLoop_run env a method url data fuel
    { retries := 0, retryIntervalMs := 200, resp := none } w
  refine ⟨n, h1, h2, ?_, h4⟩
  intro resp err w2 h
  rcases h3 resp err w2 h with h5 | h5 | h5
  · exact Or.inl h5
  · exact absurd h5.1 (by decide)
  · exact Or.inr h5

/-- With answers that are never 422 and no error, the batch loop sends one
request for each batch, in order, and returns nil. -/
theorem updateBatches_ok (env : Env) (a : Client) (url : String) (fuel : Nat)
    (enc : AirtableRecordsRes → Bytes)
    (hreq : env.newRequestErr "PATCH" url = none)
    (hjson : ∀ p, env.jsonMarshal p = .ok (enc p))
    (hresp : ∀ n req, ∃ r, env.roundTrip n req = .ok r ∧ r.StatusCode ≠ 422)
    (hfuel : 0 < fuel) (batches : List (List AirtableRecord)) :
    ∀ w : World, ∃ w2, updateBatches env a url fuel batches w = .returned none w2 ∧
      requests w2 = requests w ++
        batches.map fun b => patchRequest a url (enc { Records := b, Offset := "" }) := by
  induction batches with
  | nil => intro w; exact ⟨w, rfl, by simp⟩
  | cons b rest ih =>
    intro w
    obtain ⟨r, hr, hs⟩ := hresp (sent w + 0)
      (authedRequest a "PATCH" url (some (enc { Records := b, Offset := "" })))
    have hd := doAuthed_returns env a "PATCH" url (some (enc { Records := b, Offset := "" }))
      hreq 0 w r (fun i hi => absurd hi (Nat.not_lt_zero i)) hr hs fuel hfuel
    obtain ⟨w2, hw2, hreqs⟩ := ih
      (w ++ retryEvents (authedRequest a "PATCH" url (some (enc { Records := b, Offset := "" })))
          (delays 200 0) ++
        [Event.take,
          Event.request (authedRequest a "PATCH" url (some (enc { Records := b, Offset := "" })))] ++
        (if r.StatusCode ≠ 200 then [Event.readBody r.StatusCode] else []))
    refine ⟨w2, ?_, ?_⟩
    · rw [updateBatches]
      simp only [hjson, hd]
      exact hw2
    · rw [hreqs]
      by_cases h200 : r.StatusCode = 200 <;>
        simp [requests, delays, h200, patchRequest]

/-- Batches handled without an error leave the loop where it would be had it
started after them. -/
theorem updateBatches_append (env : Env) (a : Client) (url : String) (fuel : Nat)
    (pre : List (List AirtableRecord)) :
    ∀ (w w1 : World) (rest : List (List AirtableRecord)),
      updateBatches env a url fuel pre w = .returned none w1 →
      updateBatches env a url fuel (pre ++ rest) w = updateBatches env a url fuel rest w1 := by
  induction pre with
  | nil =>
    intro w w1 rest h
    simp only [updateBatches, Outcome.returned.injEq, true_and] at h
    subst h
    rfl
  | cons b pre ih =>
    intro w w1 rest h
    rw [List.cons_append, updateBatches]
    rw [updateBatches] at h
    cases hm : env.jsonMarshal { Records := b, Offset := "" } with
    | error err => simp [hm] at h
    | ok d =>
      simp only [hm] at h ⊢
      cases hd : doAuthed env a "PATCH" url (some d) fuel w with
      | running w3 => simp [hd] at h
      | panicked w3 => simp [hd] at h
      | returned res w3 =>
        obtain ⟨resp, err⟩ := res
        cases err with
        | some e => simp [hd] at h
        | none =>
          cases resp with
          | none => simp [hd] at h
          | some r =>
            simp only [hd] at h ⊢
            exact ih w3 w1 rest h

/-- Batches handled without an error have each been sent, and nothing else
was. -/
theorem updateBatches_sent (env : Env) (a : Client) (url : String) (fuel : Nat)
    (pre : List (List AirtableRecord)) :
    ∀ (w w1 : World), updateBatches env a url fuel pre w = .returned none w1 →
      ∃ extra, requests w1 = requests w ++ extra ∧
        (∀ b, b ∈ pre → ∃ d, env.jsonMarshal { Records := b, Offset := "" } = .ok d ∧
          patchRequest a url d ∈ extra) ∧
        (∀ r, r ∈ extra → ∃ b d, b ∈ pre ∧
          env.jsonMarshal { Records := b, Offset := "" } = .ok d ∧ r = patchRequest a url d) := by
  induction pre with
  | nil =>
    intro w w1 h
    simp only [updateBatches, Outcome.returned.injEq, true_and] at h
    subst h
    exact ⟨[], by simp, by simp, by simp⟩
  | cons b pre ih =>
    intro w w1 h
    rw [updateBatches] at h
    cases hm : env.jsonMarshal { Records := b, Offset := "" } with
    | error err => simp [hm] at h
    | ok d =>
      simp only [hm] at h
      cases hd : doAuthed env a "PATCH" url (some d) fuel w with
      | running w3 => simp [hd] at h
      | panicked w3 => simp [hd] at h
      | returned res w3 =>
        obtain ⟨resp, err⟩ := res
        cases err with
        | some e => simp [hd] at h
        | none =>
          cases resp with
          | none => simp [hd] at h
          | some r =>
            simp only [hd] at h
            obtain ⟨n, hn, hok, _, _⟩ := doAuthed_run env a "PATCH" url (some d) fuel w
            obtain ⟨hpos, _⟩ := hok _ _ hd
            rw [hd] at hn
            simp only [Outcome.world] at hn
            obtain ⟨extra, hex, hall, honly⟩ := ih w3 w1 h
            refine ⟨List.replicate n (patchRequest a url d) ++ extra, ?_, ?_, ?_⟩
            · rw [hex, hn, List.append_assoc]; rfl
            · intro b2 hb2
              rcases List.mem_cons.mp hb2 with rfl | hb2
              · refine ⟨d, hm, List.mem_append_left _ ?_⟩
                exact List.mem_replicate.mpr ⟨by omega, rfl⟩
              · obtain ⟨d2, hd2, hmem⟩ := hall b2 hb2
                exact ⟨d2, hd2, List.mem_append_right _ hmem⟩
            · intro r2 hr2
              rcases List.mem_append.mp hr2 with hr2 | hr2
              · exact ⟨b, d, List.mem_cons_self _ _, hm, (List.mem_replicate.mp hr2).2⟩
              · obtain ⟨b2, d2, hb2, hd2, hr3⟩ := honly r2 hr2
                exact ⟨b2, d2, List.mem_cons_of_mem _ hb2, hd2, hr3⟩

/-- A call of `doAuthed` only adds events to the world. -/
theorem doAuthedLoop_extends (env : Env) (a : Client) (method url : String) (data : Option Bytes)
    (fuel : Nat) :
    ∀ (v : LoopVars) (w : World),
      ∃ evs, (doAuthedLoop env a method url data fuel v w).world = w ++ evs := by
  induction fuel with
  | zero => intro v w; exact ⟨[], by simp [doAuthedLoop, Outcome.world]⟩
  | succ fuel ih =>
    intro v w
    rcases doAuthedBody_cases env a method url data v w with
      ⟨err, hb, _⟩ | ⟨resp, err, hb, _⟩ | ⟨r, hb, _⟩ | ⟨r, hb, _⟩
    · exact ⟨[], by simp [doAuthedLoop, hb, Outcome.world]⟩
    · exact ⟨[Event.take, Event.request (authedRequest a method url data)],
        by simp only [doAuthedLoop, hb, Outcome.world]⟩
    · exact ⟨[Event.take, Event.request (authedRequest a method url data)] ++
          (if r.StatusCode ≠ 200 then [Event.readBody r.StatusCode] else []),
        by simp only [doAuthedLoop, hb, Outcome.world, List.append_assoc]⟩
    · obtain ⟨evs, hevs⟩ := ih
        { retries := v.retries,
          retryIntervalMs := capInterval v.retryIntervalMs * backoffMultiple, resp := some r.afterReadAll }
        (w ++ [Event.take, Event.request (authedRequest a method url data), Event.readBody 422,
          Event.sleep (capInterval v.retryIntervalMs)])
      refine ⟨[Event.take, Event.request (authedRequest a method url data), Event.readBody 422,
          Event.sleep (capInterval v.retryIntervalMs)] ++ evs, ?_⟩
      rw [doAuthedLoop, hb]
      simp only []
      rw [hevs, List.append_assoc]

/-- After `j` answers 422 the world holds the `j` attempts and their delays,
whatever comes next. -/
theorem doAuthed_retry_trace (env : Env) (a : Client) (method url : String) (data : Option Bytes)
    (hreq : env.newRequestErr method url = none) (j : Nat) (w : World)
    (h422 : ∀ i, i < j → ∃ r, env.roundTrip (sent w + i) (authedRequest a method url data) = .ok r ∧
      r.StatusCode = 422) (fuel : Nat) (hfuel : j ≤ fuel) :
    ∃ evs, (doAuthed env a method url data fuel w).world =
      w ++ retryEvents (authedRequest a method url data) (delays 200 j) ++ evs := by
  obtain ⟨f, rfl⟩ : ∃ f, fuel = j + f := ⟨fuel - j, by omega⟩
  obtain ⟨v2, _, hloop⟩ := doAuthedLoop_retries env a method url data hreq j
    { retries := 0, retryIntervalMs := 200, resp := none } w f (by decide) h422
  rw [doAuthed, hloop]
  exact doAuthedLoop_extends env a method url data f v2 _

theorem Chunked.length_eq (T : List (List AirtableRecord)) (h : Chunked T) :
    T.length = (T.flatten.length + 9) / 10 := by
  induction T with
  | nil => exact absurd h (by simp [Chunked])
  | cons b T ih =>
    cases T with
    | nil =>
      obtain ⟨h1, h2⟩ := h
      simp
      omega
    | cons c t =>
      obtain ⟨hb, hc⟩ := h
      have ih2 := ih hc
      have hf : (b :: c :: t).flatten = b ++ (c :: t).flatten := rfl
      rw [hf, List.length_append, hb, List.length_cons, ih2]
      omega

theorem Chunked.dropLast_full (T : List (List AirtableRecord)) (h : Chunked T) :
    ∀ b, b ∈ T.dropLast → b.length = 10 := by
  induction T with
  | nil => exact absurd h (by simp [Chunked])
  | cons b T ih =>
    cases T with
    | nil => intro x hx; simp at hx
    | cons c t =>
      obtain ⟨hb, hc⟩ := h
      intro x hx
      rw [List.dropLast_cons₂] at hx
      rcases List.mem_cons.mp hx with rfl | hx
      · exact hb
      · exact ih hc x hx

theorem Chunked.last_bounds (T : List (List AirtableRecord)) (h : Chunked T) :
    ∀ b, T.getLast? = some b → 1 ≤ b.length ∧ b.length ≤ 10 := by
  induction T with
  | nil => exact absurd h (by simp [Chunked])
  | cons b T ih =>
    cases T with
    | nil =>
      intro x hx
      simp at hx
      subst hx
      exact h
    | cons c t =>
      obtain ⟨_, hc⟩ := h
      intro x hx
      rw [List.getLast?_cons_cons] at hx
      exact ih hc x hx

theorem Chunked.all_pos (T : List (List AirtableRecord)) (h : Chunked T) :
    ∀ b, b ∈ T → 1 ≤ b.length ∧ b.length ≤ 10 := by
  induction T with
  | nil => exact absurd h (by simp [Chunked])
  | cons b T ih =>
    cases T with
    | nil =>
      intro x hx
      simp at hx
      subst hx
      exact h
    | cons c t =>
      obtain ⟨hb, hc⟩ := h
      intro x hx
      rcases List.mem_cons.mp hx with rfl | hx
      · omega
      · exact ih hc x hx

/-! ## The operations: further lemmas -/

/-- The query of `GetRecords`: none for the empty filter, else the one
parameter `filterByFormula`. -/
theorem encode_filter (filter : String) :
    Values.Encode (if filter ≠ "" then Values.Add [] "filterByFormula" filter else []) =
      filterQuery filter := by
  by_cases h : filter = ""
  · subst h
    decide
  · have hk : QueryEscape "filterByFormula" ++ "=" = "filterByFormula=" := by decide
    simp [h, Values.Encode, Values.Add, Values.sorted, Values.insertSorted, stringsJoin,
      filterQuery, hk]

/-- With a request that can be built, a call of `doAuthed` with fuel
dispatches its request at once. -/
theorem doAuthed_dispatches (env : Env) (a : Client) (method url : String) (data : Option Bytes)
    (hreq : env.newRequestErr method url = none) (fuel : Nat) (hfuel : 0 < fuel) (w : World) :
    ∃ evs, (doAuthed env a method url data fuel w).world =
      w ++ [Event.take, Event.request (authedRequest a method url data)] ++ evs := by
  obtain ⟨f, rfl⟩ : ∃ f, fuel = f + 1 := ⟨fuel - 1, by omega⟩
  rw [doAuthed, doAuthedLoop]
  rcases doAuthedBody_cases env a method url data
      { retries := 0, retryIntervalMs := 200, resp := none } w with
    ⟨err, _, h1 | h1⟩ | ⟨resp, err, hb, _⟩ | ⟨r, hb, _⟩ | ⟨r, hb, _⟩
  · rw [hreq] at h1; cases h1
  · exact absurd h1.1 (by decide)
  · exact ⟨[], by simp only [hb, Outcome.world, List.append_nil]⟩
  · exact ⟨if r.StatusCode ≠ 200 then [Event.readBody r.StatusCode] else [],
      by simp only [hb, Outcome.world]⟩
  · obtain ⟨evs, hevs⟩ := doAuthedLoop_extends env a method url data f
      { retries := 0, retryIntervalMs := capInterval 200 * backoffMultiple, resp := some r.afterReadAll }
      (w ++ [Event.take, Event.request (authedRequest a method url data), Event.readBody 422,
        Event.sleep (capInterval 200)])
    refine ⟨[Event.readBody 422, Event.sleep (capInterval 200)] ++ evs, ?_⟩
    simp only [hb]
    rw [hevs]
    simp

/-- The effects of `GetRecords` are those of its one `doAuthed` call. -/
theorem GetRecords_world (env : Env) (a : Client) (base table filter : String) (fuel : Nat)
    (w : World) (u : URL)
    (hurl : env.urlParse (stringsJoin [a.baseUrl, base, table] "/") = .ok u) :
    (GetRecords env a base table filter fuel w).world =
      (doAuthed env a "GET" (env.urlString { u with RawQuery := filterQuery filter }) none
        fuel w).world := by
  unfold GetRecords
  simp only [hurl, encode_filter]
  cases hd : doAuthed env a "GET" (env.urlString { u with RawQuery := filterQuery filter }) none
      fuel w with
  | running w3 => simp only [hd, Outcome.world]
  | panicked w3 => simp only [hd, Outcome.world]
  | returned res w3 =>
    obtain ⟨resp, err⟩ := res
    cases err with
    | some e => simp only [hd, Outcome.world]
    | none =>
      cases resp with
      | none => simp only [hd, Outcome.world]
      | some r =>
        simp only [hd, Outcome.world]
        by_cases h200 : r.StatusCode = 200
        · simp only [h200, ne_eq, not_true_eq_false, if_false]
          cases r.Body with
          | failed e => rfl
          | data raw =>
            simp only []
            cases env.jsonUnmarshal raw <;> rfl
        · simp only [ne_eq, h200, not_false_eq_true, if_true]

/-! ## The claims -/

/-- C1. The batches that `UpdateRecords` builds concatenate, in order, to the
input; there are `ceil(N/10)` of them; each but the last has exactly ten
records; the last has between one and ten; no batch is empty; the empty input
gives no batch. -/
theorem recordBatches_partition (records : List AirtableRecord) :
    (recordBatches records).flatten = records ∧
    (recordBatches records).length = (records.length + 9) / 10 ∧
    (∀ b, b ∈ (recordBatches records).dropLast → b.length = 10) ∧
    (∀ b, (recordBatches records).getLast? = some b → 1 ≤ b.length ∧ b.length ≤ 10) ∧
    (∀ b, b ∈ recordBatches records → b ≠ []) ∧
    recordBatches [] = [] := by
  by_cases h : records = []
  · subst h
    simp [recordBatches_nil]
  · obtain ⟨hj, hc⟩ := recordBatches_spec records h
    refine ⟨hj, ?_, Chunked.dropLast_full _ hc, Chunked.last_bounds _ hc, ?_, rfl⟩
    · have := Chunked.length_eq _ hc
      rw [hj] at this
      exact this
    · intro b hb hnil
      have := (Chunked.all_pos _ hc b hb).1
      rw [hnil] at this
      simp at this

/-- C2. Against a service that answers every attempt with status 422,
`doAuthed` does not stop after 20 retries: `retries` is never incremented, so
the test `retries > maxRetries` never holds; whatever the number of
iterations, the call is still in its loop, has returned no error and has
dispatched one request in each iteration. -/
theorem doAuthed_retry_ceiling_never_reached (env : Env) (a : Client) (method url : String)
    (data : Option Bytes) (w : World) (fuel : Nat)
    (hreq : env.newRequestErr method url = none)
    (h422 : ∀ n, ∃ r, env.roundTrip n (authedRequest a method url data) = .ok r ∧
      r.StatusCode = 422) :
    doAuthed env a method url data fuel w =
      .running (w ++ retryEvents (authedRequest a method url data) (delays 200 fuel)) ∧
    sent (w ++ retryEvents (authedRequest a method url data) (delays 200 fuel)) = sent w + fuel :=
  ⟨doAuthed_running env a method url data hreq fuel w (fun i _ => h422 (sent w + i)),
    by simp [sent]⟩

/-- C2, at an instance: after 30 iterations, nine more than the ceiling
allows, 30 requests are out and the call has not returned. -/
theorem doAuthed_retry_ceiling_never_reached_witness :
    ∃ w, doAuthed (sampleEnv (always 422) "") sampleClient "PATCH"
        "https://api.airtable.com/v0/app/tbl" none 30 [] = .running w ∧ sent w = 30 :=
  ⟨_,
    (doAuthed_retry_ceiling_never_reached (sampleEnv (always 422) "") sampleClient "PATCH"
      "https://api.airtable.com/v0/app/tbl" none [] 30 rfl
      (fun _ => ⟨statusResponse 422, rfl, rfl⟩)).1,
    (doAuthed_retry_ceiling_never_reached (sampleEnv (always 422) "") sampleClient "PATCH"
      "https://api.airtable.com/v0/app/tbl" none [] 30 rfl
      (fun _ => ⟨statusResponse 422, rfl, rfl⟩)).2.trans (by decide)⟩

/-- C3. When the first `k + 1` attempts of a `doAuthed` call are answered 422,
the call sleeps after each of them, and the delay after attempt `j + 1` is
`min (200 * 10 ^ j) 300000` milliseconds for every `j ≤ k`, so that no delay
exceeds 300000. -/
theorem doAuthed_backoff_delays (env : Env) (a : Client) (method url : String)
    (data : Option Bytes) (k : Nat) (w : World) (fuel : Nat)
    (hreq : env.newRequestErr method url = none)
    (h422 : ∀ i, i ≤ k → ∃ r, env.roundTrip (sent w + i) (authedRequest a method url data) = .ok r ∧
      r.StatusCode = 422)
    (hfuel : k < fuel) :
    (∃ evs, (doAuthed env a method url data fuel w).world =
      w ++ retryEvents (authedRequest a method url data)
          ((List.range (k + 1)).map fun j => min (200 * 10 ^ j : Int) 300000) ++ evs) ∧
    (∃ later, sleeps (doAuthed env a method url data fuel w).world =
      sleeps w ++ ((List.range (k + 1)).map fun j => min (200 * 10 ^ j : Int) 300000) ++ later) ∧
    (sleeps (doAuthed env a method url data fuel w).world)[(sleeps w).length + k]? =
      some (min (200 * 10 ^ k) 300000) ∧
    min (200 * 10 ^ k : Int) 300000 ≤ 300000 := by
  obtain ⟨evs, hevs⟩ := doAuthed_retry_trace env a method url data hreq (k + 1) w
    (fun i hi => h422 i (by omega)) fuel hfuel
  rw [delays_200] at hevs
  refine ⟨⟨evs, hevs⟩, ⟨sleeps evs, by rw [hevs]; simp⟩, ?_, min_le_right _ _⟩
  rw [hevs]
  simp only [sleeps_append, sleeps_retryEvents, List.append_assoc]
  rw [List.getElem?_append_right (by omega)]
  simp only [Nat.add_sub_cancel_left]
  rw [List.getElem?_append_left (by simp)]
  simp

/-- C3, at an instance: six answers 422, then 200; the sixth delay is the
cap. -/
theorem doAuthed_backoff_delays_witness :
    sleeps (doAuthed (sampleEnv (busyThen 6 200) "") sampleClient "GET" "u" none 7 []).world
        = [200, 2000, 20000, 200000, 300000, 300000] ∧
    (sleeps (doAuthed (sampleEnv (busyThen 6 200) "") sampleClient "GET" "u" none 7 []).world)[
        (sleeps []).length + 5]? = some (min (200 * 10 ^ 5) 300000) :=
  ⟨by decide,
    (doAuthed_backoff_delays (sampleEnv (busyThen 6 200) "") sampleClient "GET" "u" none 5 [] 7 rfl
      (fun i hi => ⟨statusResponse 422, by
        have : i < 6 := by omega
        simp [sampleEnv, busyThen, sent, requests, this], rfl⟩) (by omega)).2.2.1⟩

/-- C4, as stated, fails on a status other than 200: `doAuthed` reads the body
of such a response to its end for the log before it returns it, so the
response that reaches the caller is not the one the transport delivered.  A
response 404 that arrives with three bytes of body is returned with none
left. -/
theorem doAuthed_drains_error_body :
    (sampleEnv notFound "").roundTrip 0 (authedRequest sampleClient "POST" "u" none) =
      .ok notFoundResponse ∧
    doAuthed (sampleEnv notFound "") sampleClient "POST" "u" none 1 [] =
      .returned (some { StatusCode := 404, Body := .data [] }, none)
        [Event.take, Event.request (authedRequest sampleClient "POST" "u" none),
          Event.readBody 404] ∧
    ({ StatusCode := 404, Body := .data [] } : Response) ≠ notFoundResponse := by
  refine ⟨rfl, by decide, by decide⟩

/-- C4, amended. A response whose status is not 422, delivered without a
transport error after any number of answers 422, ends the call: `doAuthed`
returns it with a nil error and its status, untouched when the status is 200
and with its body read to the end, for the log, when it is not; the request
it answers is the last one of the call.  And whenever `doAuthed` returns an
error, the construction of the request failed with it, or the transport
failed with it, or it is the error of the retry ceiling. -/
theorem doAuthed_returns_other_status (env : Env) (a : Client) (method url : String)
    (data : Option Bytes) (j : Nat) (w : World) (r : Response)
    (hreq : env.newRequestErr method url = none)
    (h422 : ∀ i, i < j → ∃ r2, env.roundTrip (sent w + i) (authedRequest a method url data) = .ok r2 ∧
      r2.StatusCode = 422)
    (hr : env.roundTrip (sent w + j) (authedRequest a method url data) = .ok r)
    (hs : r.StatusCode ≠ 422) :
    (∀ fuel, j < fuel →
      doAuthed env a method url data fuel w =
        .returned (some (if r.StatusCode ≠ 200 then r.afterReadAll else r), none)
          (w ++ retryEvents (authedRequest a method url data)
              ((List.range j).map fun i => min (200 * 10 ^ i : Int) 300000) ++
            [Event.take, Event.request (authedRequest a method url data)] ++
            (if r.StatusCode ≠ 200 then [Event.readBody r.StatusCode] else []))) ∧
    (if r.StatusCode ≠ 200 then r.afterReadAll else r).StatusCode = r.StatusCode ∧
    (r.StatusCode = 200 → (if r.StatusCode ≠ 200 then r.afterReadAll else r) = r) ∧
    sent (w ++ retryEvents (authedRequest a method url data)
          ((List.range j).map fun i => min (200 * 10 ^ i : Int) 300000) ++
        [Event.take, Event.request (authedRequest a method url data)] ++
        (if r.StatusCode ≠ 200 then [Event.readBody r.StatusCode] else [])) = sent w + j + 1 ∧
    (∀ (method2 url2 : String) (data2 : Option Bytes) (fuel : Nat) (w0 w2 : World)
        (resp : Option Response) (err : GoError),
      doAuthed env a method2 url2 data2 fuel w0 = .returned (resp, some err) w2 →
        env.newRequestErr method2 url2 = some err ∨
        (∃ n, env.roundTrip n (authedRequest a method2 url2 data2) = .failed resp err) ∨
        err = "Hit max retries when attempting " ++ (authedRequest a method2 url2 data2).RequestURI) := by
  refine ⟨?_, ?_, ?_, ?_, ?_⟩
  · intro fuel hfuel
    have h := doAuthed_returns env a method url data hreq j w r h422 hr hs fuel hfuel
    rw [delays_200] at h
    exact h
  · exact afterLog_status r
  · intro h200
    simp [h200]
  · have h1 : sent (retryEvents (authedRequest a method url data)
        ((List.range j).map fun i => min (200 * 10 ^ i : Int) 300000)) = j := by
      simp [sent]
    have h2 : sent [Event.take, Event.request (authedRequest a method url data)] = 1 := rfl
    have h3 : sent (if r.StatusCode ≠ 200 then [Event.readBody r.StatusCode] else []) = 0 := by
      split <;> rfl
    rw [sent_append, sent_append, sent_append, h1, h2, h3]
  · intro method2 url2 data2 fuel w0 w2 resp err h
    obtain ⟨_, _, _, herr, _⟩ := doAuthed_run env a method2 url2 data2 fuel w0
    rcases herr resp err w2 h with h1 | h1
    · exact Or.inl h1
    · exact Or.inr (Or.inl h1)

/-- C4, amended, at an instance: status 404 on the first attempt, with a body
of three bytes. -/
theorem doAuthed_returns_other_status_witness :
    doAuthed (sampleEnv notFound "") sampleClient "POST" "u" none 1 [] =
      .returned
        (some (if notFoundResponse.StatusCode ≠ 200 then notFoundResponse.afterReadAll
          else notFoundResponse), none)
        ([] ++ retryEvents (authedRequest sampleClient "POST" "u" none)
            ((List.range 0).map fun i => min (200 * 10 ^ i : Int) 300000) ++
          [Event.take, Event.request (authedRequest sampleClient "POST" "u" none)] ++
          (if notFoundResponse.StatusCode ≠ 200 then [Event.readBody notFoundResponse.StatusCode]
            else [])) :=
  (doAuthed_returns_other_status (sampleEnv notFound "") sampleClient "POST" "u"
    none 0 [] notFoundResponse rfl (fun i hi => absurd hi (Nat.not_lt_zero i)) rfl
    (by decide)).1 1 (by omega)

/-- C5. When the URL parses, the request can be built, and every request is
answered with a status other than 422 and no transport error,
`UpdateRecords` returns nil and its requests are one PATCH for each batch, in
batch order, each carrying the encoding of that batch; a list of 23 records
has the batch sizes 10, 10, 3. -/
theorem UpdateRecords_one_patch_per_batch (env : Env) (a : Client) (base table : String)
    (records : List AirtableRecord) (fuel : Nat) (w : World) (u : URL)
    (enc : AirtableRecordsRes → Bytes)
    (hurl : env.urlParse (stringsJoin [a.baseUrl, base, table] "/") = .ok u)
    (hreq : env.newRequestErr "PATCH" (env.urlString u) = none)
    (hjson : ∀ p, env.jsonMarshal p = .ok (enc p))
    (hresp : ∀ n req, ∃ r, env.roundTrip n req = .ok r ∧ r.StatusCode ≠ 422)
    (hfuel : 0 < fuel) :
    (∃ w2, UpdateRecords env a base table records fuel w = .returned none w2 ∧
      requests w2 = requests w ++ (recordBatches records).map fun b =>
        patchRequest a (env.urlString u) (enc { Records := b, Offset := "" })) ∧
    (records.length = 23 → (recordBatches records).map List.length = [10, 10, 3]) := by
  constructor
  · obtain ⟨w2, h1, h2⟩ := updateBatches_ok env a (env.urlString u) fuel enc hreq hjson hresp hfuel
      (recordBatches records) w
    refine ⟨w2, ?_, h2⟩
    unfold UpdateRecords
    simp only [hurl]
    exact h1
  · intro h23
    have hne : records ≠ [] := by
      intro h
      rw [h] at h23
      simp at h23
    obtain ⟨hj, hc⟩ := recordBatches_spec records hne
    rw [Chunked.map_length _ hc, hj, h23]
    decide

/-- C5, at an instance: 23 records, every answer 200. -/
theorem UpdateRecords_one_patch_per_batch_witness :
    (requests (UpdateRecords (sampleEnv (always 200) "") sampleClient "app" "tbl"
        (sampleRecords 23) 1 []).world).map (fun req => req.Method) = ["PATCH", "PATCH", "PATCH"] ∧
    ((∃ w2, UpdateRecords (sampleEnv (always 200) "") sampleClient "app" "tbl"
          (sampleRecords 23) 1 [] = .returned none w2 ∧
        requests w2 = requests [] ++ (recordBatches (sampleRecords 23)).map fun b =>
          patchRequest sampleClient ((sampleEnv (always 200) "").urlString sampleTarget)
            (sampleMarshal { Records := b, Offset := "" })) ∧
      ((sampleRecords 23).length = 23 →
        (recordBatches (sampleRecords 23)).map List.length = [10, 10, 3])) :=
  ⟨by decide,
    UpdateRecords_one_patch_per_batch (sampleEnv (always 200) "") sampleClient "app" "tbl"
      (sampleRecords 23) 1 [] sampleTarget sampleMarshal rfl rfl (fun _ => rfl)
      (fun _ _ => ⟨statusResponse 200, rfl, by decide⟩) (by omega)⟩

/-- C6. When the batches before batch `k` are handled without an error and
the `doAuthed` call for batch `k` returns an error, `UpdateRecords` returns
that error in the world in which that call ended: every batch before `k` has
been sent, and every request sent is the PATCH of a batch of index at most
`k`. -/
theorem UpdateRecords_stops_at_first_error (env : Env) (a : Client) (base table : String)
    (records : List AirtableRecord) (fuel : Nat) (w w1 w2 : World) (u : URL) (k : Nat)
    (b : List AirtableRecord) (d : Bytes) (resp : Option Response) (e : GoError)
    (hurl : env.urlParse (stringsJoin [a.baseUrl, base, table] "/") = .ok u)
    (hk : (recordBatches records)[k]? = some b)
    (hpre : updateBatches env a (env.urlString u) fuel ((recordBatches records).take k) w =
      .returned none w1)
    (hm : env.jsonMarshal { Records := b, Offset := "" } = .ok d)
    (hcall : doAuthed env a "PATCH" (env.urlString u) (some d) fuel w1 =
      .returned (resp, some e) w2) :
    UpdateRecords env a base table records fuel w = .returned (some e) w2 ∧
    ∃ extra, requests w2 = requests w ++ extra ∧
      (∀ b2, b2 ∈ (recordBatches records).take k →
        ∃ d2, env.jsonMarshal { Records := b2, Offset := "" } = .ok d2 ∧
          patchRequest a (env.urlString u) d2 ∈ extra) ∧
      (∀ r, r ∈ extra → ∃ b2 d2, b2 ∈ (recordBatches records).take (k + 1) ∧
        env.jsonMarshal { Records := b2, Offset := "" } = .ok d2 ∧
        r = patchRequest a (env.urlString u) d2) := by
  obtain ⟨hlt, hget⟩ := List.getElem?_eq_some.mp hk
  have hsplit : recordBatches records =
      (recordBatches records).take k ++ b :: (recordBatches records).drop (k + 1) := by
    rw [← hget, ← List.drop_eq_getElem_cons hlt, List.take_append_drop]
  have htake : (recordBatches records).take (k + 1) = (recordBatches records).take k ++ [b] := by
    rw [← hget, List.take_succ, List.getElem?_eq_getElem hlt]
    rfl
  constructor
  · unfold UpdateRecords
    simp only [hurl]
    rw [hsplit, updateBatches_append env a (env.urlString u) fuel _ w w1 _ hpre, updateBatches]
    simp only [hm, hcall]
  · obtain ⟨extra, hex, hall, honly⟩ := updateBatches_sent env a (env.urlString u) fuel _ w w1 hpre
    obtain ⟨n, hn, _⟩ := doAuthed_run env a "PATCH" (env.urlString u) (some d) fuel w1
    rw [hcall] at hn
    simp only [Outcome.world] at hn
    refine ⟨extra ++ List.replicate n (patchRequest a (env.urlString u) d), ?_, ?_, ?_⟩
    · rw [hn, hex, List.append_assoc]
      rfl
    · intro b2 hb2
      obtain ⟨d2, hd2, hmem⟩ := hall b2 hb2
      exact ⟨d2, hd2, List.mem_append_left _ hmem⟩
    · intro r hr
      rw [htake]
      rcases List.mem_append.mp hr with hr | hr
      · obtain ⟨b2, d2, hb2, hd2, hr2⟩ := honly r hr
        exact ⟨b2, d2, List.mem_append_left _ hb2, hd2, hr2⟩
      · exact ⟨b, d, List.mem_append_right _ (List.mem_singleton.mpr rfl), hm,
          (List.mem_replicate.mp hr).2⟩

/-- C6, at an instance: 21 records, the connection lost after the first
request; the second batch fails, the third is never sent. -/
theorem UpdateRecords_stops_at_first_error_witness :
    UpdateRecords (sampleEnv (refusedAfter 1) "") sampleClient "app" "tbl" (sampleRecords 21) 1 []
        = .returned (some "dial tcp: connection refused")
            [Event.take,
              Event.request (patchRequest sampleClient "https://api.airtable.com/v0/app/tbl"
                (sampleMarshal { Records := (sampleRecords 21).take 10, Offset := "" })),
              Event.take,
              Event.request (patchRequest sampleClient "https://api.airtable.com/v0/app/tbl"
                (sampleMarshal { Records := ((sampleRecords 21).drop 10).take 10, Offset := "" }))] :=
  (UpdateRecords_stops_at_first_error (sampleEnv (refusedAfter 1) "") sampleClient "app" "tbl"
    (sampleRecords 21) 1 []
    [Event.take,
      Event.request (patchRequest sampleClient "https://api.airtable.com/v0/app/tbl"
        (sampleMarshal { Records := (sampleRecords 21).take 10, Offset := "" }))]
    [Event.take,
      Event.request (patchRequest sampleClient "https://api.airtable.com/v0/app/tbl"
        (sampleMarshal { Records := (sampleRecords 21).take 10, Offset := "" })),
      Event.take,
      Event.request (patchRequest sampleClient "https://api.airtable.com/v0/app/tbl"
        (sampleMarshal { Records := ((sampleRecords 21).drop 10).take 10, Offset := "" }))]
    sampleTarget 1 (((sampleRecords 21).drop 10).take 10)
    (sampleMarshal { Records := ((sampleRecords 21).drop 10).take 10, Offset := "" })
    none "dial tcp: connection refused"
    rfl (by decide) (by decide) rfl (by decide)).1


/-- C7. When `doAuthed` returns an error and no response, as it does on an
error of the transport, `CreateRecords` does not return that error:
`defer resp.Body.Close()` stands before the check of `err` and dereferences
the nil response, so the call panics. -/
theorem CreateRecords_transport_error_panics (env : Env) (a : Client) (base table : String)
    (records : List (List (String × String))) (fuel : Nat) (w w2 : World) (d : Bytes)
    (err : GoError)
    (hm : env.jsonMarshal
      { Records := records.foldl (fun airRecs record =>
          airRecs ++ [({ ID := "", Fields := record, CreatedTime := "" } : AirtableRecord)]) [],
        Offset := "" } = .ok d)
    (hd : doAuthed env a "POST" (stringsJoin [a.baseUrl, base, table] "/") (some d) fuel w =
      .returned (none, some err) w2) :
    CreateRecords env a base table records fuel w = .panicked w2 ∧
    CreateRecords env a base table records fuel w ≠ .returned (some err) w2 := by
  have h : CreateRecords env a base table records fuel w = .panicked w2 := by
    unfold CreateRecords
    simp only [hm, hd]
  exact ⟨h, by rw [h]; exact fun h2 => Outcome.noConfusion h2⟩

/-- C7, at an instance: one record to create and no connection to the
service. -/
theorem CreateRecords_transport_error_panics_witness :
    CreateRecords (sampleEnv refused "") sampleClient "app" "tbl" [[("Name", "x")]] 1 [] =
      .panicked
        [Event.take,
          Event.request (authedRequest sampleClient "POST" "https://api.airtable.com/v0/app/tbl"
            (some (sampleMarshal
              { Records := [{ ID := "", Fields := [("Name", "x")], CreatedTime := "" }],
                Offset := "" })))] :=
  (CreateRecords_transport_error_panics (sampleEnv refused "") sampleClient "app" "tbl"
    [[("Name", "x")]] 1 [] _ _ "dial tcp: connection refused" rfl (by decide)).1

/-- C8. When every request is answered with one status `s` other than 200 and
422, `GetRecords` returns no records and the error `Invalid StatusCode
GetRecords`, while `UpdateRecords` returns nil. -/
theorem status_error_on_read_nil_on_write (env : Env) (a : Client) (base table filter : String)
    (records : List AirtableRecord) (fuel : Nat) (w : World) (u : URL)
    (enc : AirtableRecordsRes → Bytes) (s : Int)
    (hs200 : s ≠ 200) (hs422 : s ≠ 422)
    (hurl : env.urlParse (stringsJoin [a.baseUrl, base, table] "/") = .ok u)
    (hget : env.newRequestErr "GET" (env.urlString { u with RawQuery := filterQuery filter }) = none)
    (hpatch : env.newRequestErr "PATCH" (env.urlString u) = none)
    (hjson : ∀ p, env.jsonMarshal p = .ok (enc p))
    (hresp : ∀ n req, ∃ r, env.roundTrip n req = .ok r ∧ r.StatusCode = s)
    (hfuel : 0 < fuel) :
    (∃ w2, GetRecords env a base table filter fuel w =
      .returned ([], some "Invalid StatusCode GetRecords") w2) ∧
    (∃ w2, UpdateRecords env a base table records fuel w = .returned none w2) := by
  constructor
  · obtain ⟨r, hr, hrs⟩ := hresp (sent w + 0)
      (authedRequest a "GET" (env.urlString { u with RawQuery := filterQuery filter }) none)
    have hd := doAuthed_returns env a "GET"
      (env.urlString { u with RawQuery := filterQuery filter }) none hget 0 w r
      (fun i hi => absurd hi (Nat.not_lt_zero i)) hr (by rw [hrs]; exact hs422) fuel hfuel
    unfold GetRecords
    simp only [hurl, encode_filter, hd]
    rw [if_pos (by rw [afterLog_status, hrs]; exact hs200)]
    exact ⟨_, rfl⟩
  · obtain ⟨w2, h1, _⟩ := updateBatches_ok env a (env.urlString u) fuel enc hpatch hjson
      (fun n req => by
        obtain ⟨r, hr, hrs⟩ := hresp n req
        exact ⟨r, hr, by rw [hrs]; exact hs422⟩)
      hfuel (recordBatches records) w
    refine ⟨w2, ?_⟩
    unfold UpdateRecords
    simp only [hurl]
    exact h1

/-- C8, at an instance: status 404. -/
theorem status_error_on_read_nil_on_write_witness :
    (∃ w2, GetRecords (sampleEnv (always 404) "") sampleClient "app" "tbl" "" 1 [] =
      .returned ([], some "Invalid StatusCode GetRecords") w2) ∧
    (∃ w2, UpdateRecords (sampleEnv (always 404) "") sampleClient "app" "tbl" (sampleRecords 3) 1 [] =
      .returned none w2) :=
  status_error_on_read_nil_on_write (sampleEnv (always 404) "") sampleClient "app" "tbl" ""
    (sampleRecords 3) 1 [] sampleTarget sampleMarshal 404 (by decide) (by decide) rfl rfl rfl
    (fun _ => rfl) (fun _ _ => ⟨statusResponse 404, rfl, rfl⟩) (by omega)

/-- C9, as stated, fails for the explicit constructor: `NewClient` called
with an empty key returns a client like any other, which holds the base URL
and, when used, sends a request whose header is `Authorization: Bearer `
followed by nothing. -/
theorem NewClient_empty_key_succeeds :
    NewClient "" "https://api.airtable.com/v0" =
      { apiKey := "", baseUrl := "https://api.airtable.com/v0" } ∧
    NewClient "" "https://api.airtable.com/v0" ≠ (NewClientFromEnv (sampleEnv refused "")).1 ∧
    requests (GetRecords (sampleEnv (always 200) "") (NewClient "" "https://api.airtable.com/v0")
        "app" "tbl" "" 1 []).world =
      [{ Method := "GET", URL := "https://api.airtable.com/v0/app/tbl", Body := none,
         Header := [("Content-Type", "application/json"), ("Authorization", "Bearer ")],
         RequestURI := "" }] := by
  refine ⟨rfl, by decide, by decide⟩

/-- C9, amended. `NewClientFromEnv` fails when the variable
`AIRTABLE_API_KEY` is empty or absent: it returns the zero client and the
error `Empty AIRTABLE_API_KEY`, whatever the transport would answer; the
explicit constructor `NewClient` has no error result and returns a client
holding the key it was given, also the empty one. -/
theorem NewClientFromEnv_empty_key (env : Env) (h : env.getenv "AIRTABLE_API_KEY" = "") :
    NewClientFromEnv env = ({ apiKey := "", baseUrl := "" }, some "Empty AIRTABLE_API_KEY") ∧
    (∀ env2 : Env, env2.getenv = env.getenv → NewClientFromEnv env2 = NewClientFromEnv env) ∧
    (∀ baseUrl, NewClient "" baseUrl = { apiKey := "", baseUrl := baseUrl }) := by
  refine ⟨by simp [NewClientFromEnv, h], ?_, fun _ => rfl⟩
  intro env2 h2
  simp [NewClientFromEnv, h2]

/-- C9, amended, at an instance: no key in the environment. -/
theorem NewClientFromEnv_empty_key_witness :
    NewClientFromEnv (sampleEnv refused "") =
      ({ apiKey := "", baseUrl := "" }, some "Empty AIRTABLE_API_KEY") :=
  (NewClientFromEnv_empty_key (sampleEnv refused "") rfl).1

/-- C10. Every request of `GetRecords` is a GET of the URL parsed from
`baseUrl/base/table` with its query replaced: by the empty query for the
empty filter, by the one parameter `filterByFormula=` followed by the escaped
filter otherwise.  At least one such request is sent when the request can be
built; none is sent when the URL does not parse. -/
theorem GetRecords_request_url (env : Env) (a : Client) (base table filter : String)
    (fuel : Nat) (w : World) :
    stringsJoin [a.baseUrl, base, table] "/" = a.baseUrl ++ "/" ++ base ++ "/" ++ table ∧
    (∀ err, env.urlParse (stringsJoin [a.baseUrl, base, table] "/") = .error err →
      requests (GetRecords env a base table filter fuel w).world = requests w) ∧
    (∀ u, env.urlParse (stringsJoin [a.baseUrl, base, table] "/") = .ok u →
      ∃ n,
        requests (GetRecords env a base table filter fuel w).world =
          requests w ++ List.replicate n
            (authedRequest a "GET"
              (env.urlString
                { u with
                  RawQuery :=
                    if filter = "" then "" else "filterByFormula=" ++ QueryEscape filter })
              none) ∧
        (env.newRequestErr "GET"
            (env.urlString
              { u with
                RawQuery := if filter = "" then "" else "filterByFormula=" ++ QueryEscape filter })
            = none →
          0 < fuel → 0 < n)) := by
  refine ⟨by simp [stringsJoin, String.append_assoc], ?_, ?_⟩
  · intro err herr
    unfold GetRecords
    simp only [herr, Outcome.world]
  · intro u hurl
    rw [GetRecords_world env a base table filter fuel w u hurl]
    obtain ⟨n, hn, _⟩ := doAuthed_run env a "GET"
      (env.urlString { u with RawQuery := filterQuery filter }) none fuel w
    refine ⟨n, hn, ?_⟩
    intro hreq hfuel
    obtain ⟨evs, hevs⟩ := doAuthed_dispatches env a "GET"
      (env.urlString { u with RawQuery := filterQuery filter }) none hreq fuel hfuel w
    rw [hevs] at hn
    have hlen := congrArg List.length hn
    simp [requests] at hlen
    omega

/-- C10, at an instance: a filter with a space, quotes and braces, and the
empty filter. -/
theorem GetRecords_request_url_witness :
    (requests (GetRecords (sampleEnv (always 200) "") sampleClient "app" "tbl"
        "\x7bName\x7d = 'a b'" 1 []).world).map (fun req => req.URL) =
      ["https://api.airtable.com/v0/app/tbl?filterByFormula=%7BName%7D+%3D+%27a+b%27"] ∧
    (requests (GetRecords (sampleEnv (always 200) "") sampleClient "app" "tbl" "" 1 []).world).map
        (fun req => req.URL) = ["https://api.airtable.com/v0/app/tbl"] ∧
    ∃ n,
      requests (GetRecords (sampleEnv (always 200) "") sampleClient "app" "tbl"
          "\x7bName\x7d = 'a b'" 1 []).world =
        requests [] ++ List.replicate n
          (authedRequest sampleClient "GET"
            ((sampleEnv (always 200) "").urlString
              { sampleTarget with
                RawQuery := if "\x7bName\x7d = 'a b'" = "" then ""
                  else "filterByFormula=" ++ QueryEscape "\x7bName\x7d = 'a b'" })
            none) ∧
      0 < n :=
  ⟨by decide, by decide,
    ((GetRecords_request_url (sampleEnv (always 200) "") sampleClient "app" "tbl"
      "\x7bName\x7d = 'a b'" 1 []).2.2 sampleTarget rfl).imp
      fun _ h => ⟨h.1, h.2 rfl (by omega)⟩⟩

end Airtable
